import Mathlib

/-!
Verification of the pothole-detection core: geo-distance utility,
greedy nearest-neighbor route planner, CSV-backed detection record
store, and the cooldown-gated detection stream processor.

Python floats are modelled as real numbers (`ℝ`) where trigonometry is
involved (`utils.calculate_distance`, `utils.nearest_neighbor_path`)
and as rationals (`ℚ`) in the record store and the stream processor,
where every value that occurs is a finite decimal.  Fallible parses
(`int(...)` / `float(...)` wrapped in `try/except`) are modelled as
`Option` values: a raw CSV row carries the parse outcome of each typed
field.
-/

namespace Geospatial

/-! ## Geo-distance utility (`utils.calculate_distance`) -/

/-- `math.radians`: degree-to-radian conversion. -/
noncomputable def radians (x : ℝ) : ℝ := x * Real.pi / 180

/-- `utils.calculate_distance`: Haversine great-circle distance, Earth
radius 6371 km, inputs in degrees. -/
noncomputable def calculate_distance (lat1 lon1 lat2 lon2 : ℝ) : ℝ :=
  6371 *
    (2 * Real.arcsin (Real.sqrt
      (Real.sin ((radians lat2 - radians lat1) / 2) ^ 2 +
        Real.cos (radians lat1) * Real.cos (radians lat2) *
          Real.sin ((radians lon2 - radians lon1) / 2) ^ 2)))

/-! ## Route planner (`utils.nearest_neighbor_path`) -/

/-- A located item, as consumed by the planner (`points[i]['lat']`,
`points[i]['lng']`). -/
structure Point where
  lat : ℝ
  lng : ℝ

/-- Distance between the `i`-th and `j`-th points of the input list, as
computed inside the planner's scan loop. -/
noncomputable def pdist (points : List Point) (i j : ℕ) : ℝ :=
  calculate_distance (points.getD i ⟨0, 0⟩).lat (points.getD i ⟨0, 0⟩).lng
    (points.getD j ⟨0, 0⟩).lat (points.getD j ⟨0, 0⟩).lng

open scoped Classical in
/-- One iteration of the planner's inner scan: `j` is considered only if
unvisited; it replaces the running best exactly when its distance is
strictly below the running minimum (`float('inf')` before the first
candidate is modelled by the `none` accumulator). -/
noncomputable def scanStep (points : List Point) (visited : List Bool) (current : ℕ)
    (acc : Option (ℕ × ℝ)) (j : ℕ) : Option (ℕ × ℝ) :=
  if visited.getD j true then acc
  else
    match acc with
    | none => some (j, pdist points current j)
    | some (i, m) =>
        if pdist points current j < m then some (j, pdist points current j) else some (i, m)

/-- The planner's inner `for j in range(n)` loop: returns the unvisited
index nearest to `current` together with its distance, or `none` when
every index is visited. -/
noncomputable def selectNearest (points : List Point) (visited : List Bool)
    (current : ℕ) : Option (ℕ × ℝ) :=
  (List.range points.length).foldl (scanStep points visited current) none

/-- The planner's outer `for _ in range(n - 1)` loop, with the iteration
count as explicit fuel.  When no unvisited point remains the iteration
leaves the state unchanged, exactly as the `if nearest is not None`
guard does. -/
noncomputable def nnLoop (points : List Point) :
    ℕ → List Bool → ℕ → List ℕ → ℝ → List ℕ × ℝ
  | 0, _, _, path, total => (path, total)
  | fuel + 1, visited, current, path, total =>
    match selectNearest points visited current with
    | none => nnLoop points fuel visited current path total
    | some (j, m) =>
        nnLoop points fuel (visited.set j true) j (path ++ [j]) (total + m)

/-- `utils.nearest_neighbor_path`: greedy nearest-neighbor tour from
`start_idx`, returning the visit order and the accumulated distance. -/
noncomputable def nearest_neighbor_path (points : List Point) (start_idx : ℕ := 0) :
    List ℕ × ℝ :=
  if points.isEmpty then ([], 0)
  else
    nnLoop points (points.length - 1)
      ((List.replicate points.length false).set start_idx true)
      start_idx [start_idx] 0

/-- Sum of the distances of consecutive legs of a visit order (no
return leg). -/
noncomputable def legSum (points : List Point) : List ℕ → ℝ
  | [] => 0
  | [_] => 0
  | a :: b :: rest => pdist points a b + legSum points (b :: rest)

/-- A visit order is greedy: each step moves to a not-yet-visited index
of minimum distance from the current one, ties broken to the lowest
index. -/
def GreedyOrder (points : List Point) (path : List ℕ) : Prop :=
  ∀ k : ℕ, k + 1 < path.length →
    path.getD (k + 1) 0 < points.length ∧
    path.getD (k + 1) 0 ∉ path.take (k + 1) ∧
    ∀ j < points.length, j ∉ path.take (k + 1) →
      pdist points (path.getD k 0) (path.getD (k + 1) 0) ≤
          pdist points (path.getD k 0) j ∧
        (pdist points (path.getD k 0) j ≤
            pdist points (path.getD k 0) (path.getD (k + 1) 0) →
          path.getD (k + 1) 0 ≤ j)

/-- Invariant of the inner scan: over the indices scanned so far, a
`none` accumulator means all of them were visited, and a `some (i, m)`
accumulator records the first-encountered minimum `i` among the
unvisited scanned indices, with its distance `m`. -/
def ScanInv (points : List Point) (visited : List Bool) (current : ℕ)
    (scanned : List ℕ) (acc : Option (ℕ × ℝ)) : Prop :=
  match acc with
  | none => ∀ j ∈ scanned, visited.getD j true = true
  | some (i, m) =>
      i ∈ scanned ∧ visited.getD i true = false ∧ m = pdist points current i ∧
      ∀ j ∈ scanned, visited.getD j true = false →
        m ≤ pdist points current j ∧ (pdist points current j ≤ m → i ≤ j)

end Geospatial

namespace Database

/-! ## Detection record store (`database.py`)

A raw CSV data row is modelled at the level of its per-field parse
outcomes: `id` is the result of `int(row.get('ID', 0))` (`none` when the
`int` conversion raises), and `lat`, `lng`, `confidence` are the results
of the corresponding `float(... or 0)` conversions.  String-typed fields
never fail to parse. -/

/-- A data row of `detections.csv`. -/
structure Row where
  id : Option ℤ
  timestamp : String
  image_path : String
  lat : Option ℚ
  lng : Option ℚ
  type : String
  confidence : Option ℚ
deriving DecidableEq

/-- A data row of `repairs.csv`. -/
structure RepairRow where
  id : Option ℤ
  timestamp : String
  image_path : String
  lat : Option ℚ
  lng : Option ℚ
  type : String
  confidence : Option ℚ
  repair_date : String
  technician : String
  notes : String
deriving DecidableEq

/-- The persistent state: the data rows of the two CSV files. -/
structure Store where
  detections : List Row
  repairs : List RepairRow
deriving DecidableEq

/-- A parsed active detection, as produced by `get_all_detections`. -/
structure Detection where
  id : ℤ
  timestamp : String
  image_path : String
  lat : ℚ
  lng : ℚ
  type : String
  confidence : ℚ
deriving DecidableEq

/-- A parsed archived record, as produced by `get_all_repairs`. -/
structure Repair where
  id : ℤ
  timestamp : String
  image_path : String
  lat : ℚ
  lng : ℚ
  type : String
  confidence : ℚ
  repair_date : String
  technician : String
  notes : String
deriving DecidableEq

/-- The row-dictionary parse inside `get_all_detections`: the row is
kept iff every typed field converts. -/
def parseDetection (r : Row) : Option Detection :=
  match r.id, r.lat, r.lng, r.confidence with
  | some i, some la, some ln, some c =>
      some ⟨i, r.timestamp, r.image_path, la, ln, r.type, c⟩
  | _, _, _, _ => none

/-- The row-dictionary parse inside `get_all_repairs`. -/
def parseRepair (r : RepairRow) : Option Repair :=
  match r.id, r.lat, r.lng, r.confidence with
  | some i, some la, some ln, some c =>
      some ⟨i, r.timestamp, r.image_path, la, ln, r.type, c,
        r.repair_date, r.technician, r.notes⟩
  | _, _, _, _ => none

/-- `database.get_all_detections`: parse-tolerant read of the active
rows (a row with an unparsable field is skipped). -/
def get_all_detections (s : Store) : List Detection :=
  s.detections.filterMap parseDetection

/-- `database.get_all_repairs`. -/
def get_all_repairs (s : Store) : List Repair :=
  s.repairs.filterMap parseRepair

/-- One step of the `max_id` accumulation in `get_next_detection_id`:
rows whose `ID` fails `int` conversion are skipped by the
`try/except`. -/
def maxIdStep (m : ℤ) (o : Option ℤ) : ℤ :=
  match o with
  | some v => if v > m then v else m
  | none => m

/-- `database.get_next_detection_id`: scan the `ID` column of both
files starting from `max_id = 0`, return the maximum plus one. -/
def get_next_detection_id (s : Store) : ℤ :=
  (s.repairs.map RepairRow.id).foldl maxIdStep
    ((s.detections.map Row.id).foldl maxIdStep 0) + 1

/-- `database.add_detection`: assign the next id, append a fully
populated row to the active file, return the id (the wall-clock
timestamp is passed in explicitly). -/
def add_detection (s : Store) (image_path : String) (latitude longitude : ℚ)
    (detection_type : String) (confidence : ℚ) (timestamp : String) : Store × ℤ :=
  let detection_id := get_next_detection_id s
  ({ s with
      detections := s.detections ++
        [⟨some detection_id, timestamp, image_path, some latitude, some longitude,
          detection_type, some confidence⟩] },
    detection_id)

/-- One character of Python's `str.title()`: a letter is uppercased
when it does not follow another letter, lowercased otherwise. -/
def titleChar (prevAlpha : Bool) (c : Char) : Char :=
  if c.isAlpha then (if prevAlpha then c.toLower else c.toUpper) else c

def titleAux : Bool → List Char → List Char
  | _, [] => []
  | prev, c :: cs => titleChar prev c :: titleAux c.isAlpha cs

/-- Python's `str.title()` restricted to ASCII letters. -/
def asciiTitle (s : String) : String := ⟨titleAux false s.data⟩

/-- The row written back to `detections.csv` for a retained parsed
record during the rewrite in `move_to_repairs`. -/
def rowOfDetection (d : Detection) : Row :=
  ⟨some d.id, d.timestamp, d.image_path, some d.lat, some d.lng, d.type,
    some d.confidence⟩

/-- The row appended to `repairs.csv` by `move_to_repairs`. -/
def repairRowOfDetection (d : Detection) (repair_date technician notes : String) :
    RepairRow :=
  ⟨some d.id, d.timestamp, d.image_path, some d.lat, some d.lng, d.type,
    some d.confidence, repair_date, technician, notes⟩

/-- `database.move_to_repairs`: find the first parsed active record with
the given id; if absent report failure; otherwise append it (plus repair
metadata) to the repairs file and rewrite the detections file from the
remaining parsed records.  The repair timestamp is passed in
explicitly. -/
def move_to_repairs (s : Store) (detection_id : ℤ) (technician notes : String)
    (repair_date : String) : Store × Bool × String :=
  let detections := get_all_detections s
  match detections.find? (fun d => d.id == detection_id) with
  | none => (s, false, "Detection not found")
  | some detection =>
      ({ detections :=
            (detections.filter (fun d => d.id != detection_id)).map rowOfDetection,
          repairs :=
            s.repairs ++ [repairRowOfDetection detection repair_date technician notes] },
        true,
        asciiTitle detection.type ++ " #" ++ toString detection_id ++
          " has been fixed!")

/-- The counters of `database.get_detection_stats` (the float-rounded
average confidence and the wall-clock date-window counters lie outside
this model). -/
structure Stats where
  total_detections : ℕ
  total_potholes : ℕ
  total_cracks : ℕ
  fixed_count : ℕ
  fixed_potholes : ℕ
  fixed_cracks : ℕ
  high_severity : ℕ
  medium_severity : ℕ
  low_severity : ℕ
deriving DecidableEq

/-- `database.get_detection_stats`, category and confidence-band
counters. -/
def get_detection_stats (s : Store) : Stats :=
  let detections := get_all_detections s
  let repairs := get_all_repairs s
  { total_detections := detections.length
    total_potholes := detections.countP (fun d => d.type.toLower == "pothole")
    total_cracks := detections.countP (fun d => d.type.toLower == "crack")
    fixed_count := repairs.length
    fixed_potholes := repairs.countP (fun r => r.type.toLower == "pothole")
    fixed_cracks := repairs.countP (fun r => r.type.toLower == "crack")
    high_severity := detections.countP (fun d => d.confidence ≥ 0.8)
    medium_severity :=
      detections.countP (fun d => 0.5 ≤ d.confidence ∧ d.confidence < 0.8)
    low_severity := detections.countP (fun d => d.confidence < 0.5) }

/-- All ids present (i.e. with a parseable `ID` field) across the two
files. -/
def allIds (s : Store) : List ℤ :=
  (s.detections.map Row.id ++ s.repairs.map RepairRow.id).reduceOption

/-- The empty store: both CSV files have a header and no data rows. -/
def emptyStore : Store := ⟨[], []⟩

/-- A store whose only parseable id is negative. -/
def negIdStore : Store :=
  ⟨[⟨some (-5), "2024-01-01 00:00:00", "img.jpg", some 0, some 0, "pothole", some 0⟩],
    []⟩

/-- A store with max id 7 in the active file and 10 in the archive. -/
def scenarioStore : Store :=
  ⟨[⟨some 7, "2024-01-01 00:00:00", "a.jpg", some 0, some 0, "pothole", some 1⟩],
    [⟨some 10, "2024-01-02 00:00:00", "b.jpg", some 0, some 0, "crack", some 1,
      "2024-01-03", "tech", ""⟩]⟩

/-- A store holding a parseable row (id 1) and a row whose latitude
fails to parse (id 2). -/
def mixedStore : Store :=
  ⟨[⟨some 1, "2024-01-01 00:00:00", "a.jpg", some 0, some 0, "pothole", some 1⟩,
    ⟨some 2, "2024-01-01 00:00:01", "b.jpg", none, some 0, "crack", some 1⟩],
    []⟩

/-- A store whose single active detection has confidence 0.6. -/
def bandStore : Store :=
  ⟨[⟨some 1, "2024-01-01 00:00:00", "a.jpg", some 0, some 0, "pothole",
      some (6 / 10)⟩], []⟩

end Database

namespace App

/-! ## Detection stream processor (`app.generate_frames`, `config.py`) -/

/-- `config.CAPTURE_COOLDOWN`: seconds between automatic captures. -/
def CAPTURE_COOLDOWN : ℚ := 5

/-- The `skip_frames` constant of `generate_frames`. -/
def skip_frames : ℕ := 2

/-- The cooldown gate of `generate_frames`, iterated over the sequence
of timestamps of qualifying detections: a detection is persisted iff
`current_time - last_capture_time > CAPTURE_COOLDOWN`, in which case
`last_capture_time` is set to `current_time`; the result is the list of
persisted timestamps. -/
def persistTimes : ℚ → List ℚ → List ℚ
  | _, [] => []
  | last, t :: rest =>
    if t - last > CAPTURE_COOLDOWN then t :: persistTimes t rest
    else persistTimes last rest

/-- The per-frame schedule of `generate_frames`, starting from counter
value `fc` and processing `m` further frames: each frame increments the
counter, and inference runs iff the incremented counter is divisible by
`skip_frames`.  Returns, per frame, whether inference ran. -/
def runStream : ℕ → ℕ → List Bool
  | _, 0 => []
  | fc, m + 1 => ((fc + 1) % skip_frames == 0) :: runStream (fc + 1) m

/-- The shared `latest_location` cell (`latitude` / `longitude` may be
`None`). -/
structure LatestLocation where
  latitude : Option ℚ
  longitude : Option ℚ
deriving DecidableEq

/-- Python's `x or 0` applied to an optional coordinate: `None` and `0`
are falsy and give `0`. -/
def orZero : Option ℚ → ℚ
  | none => 0
  | some v => if v == 0 then 0 else v

/-- Python truthiness of an optional coordinate (`if lat and lng`). -/
def truthy : Option ℚ → Bool
  | none => false
  | some v => v != 0

/-- The `detection_alert` notification payload; `location = none` is
rendered as the string "Unknown". -/
structure DetectionEvent where
  id : ℤ
  timestamp : String
  confidence : ℚ
  type : String
  location : Option (ℚ × ℚ)
deriving DecidableEq

/-- The persistence block of `generate_frames` once the cooldown gate
has passed: read the latest known location, defaulting each missing
coordinate to 0, append the detection row via `add_detection`, and
emit the notification event, whose location is `none` ("Unknown")
unless both coordinates are known and nonzero. -/
def capture_step (s : Database.Store) (loc : LatestLocation)
    (filepath timestamp class_name : String) (conf : ℚ) :
    Database.Store × DetectionEvent :=
  let lat := loc.latitude
  let lng := loc.longitude
  let r := Database.add_detection s filepath (orZero lat) (orZero lng)
    class_name conf timestamp
  (r.1, ⟨r.2, timestamp, conf, class_name,
    if truthy lat && truthy lng then some (orZero lat, orZero lng) else none⟩)

end App

namespace Geospatial

lemma calculate_distance_self (lat lon : ℝ) :
    calculate_distance lat lon lat lon = 0 := by
  unfold calculate_distance
  simp

lemma calculate_distance_comm (lat1 lon1 lat2 lon2 : ℝ) :
    calculate_distance lat1 lon1 lat2 lon2 = calculate_distance lat2 lon2 lat1 lon1 := by
  unfold calculate_distance
  have h : ∀ x y : ℝ, Real.sin ((x - y) / 2) ^ 2 = Real.sin ((y - x) / 2) ^ 2 := by
    intro x y
    rw [show (x - y) / 2 = -((y - x) / 2) by ring, Real.sin_neg]
    ring
  rw [h (radians lat2) (radians lat1), h (radians lon2) (radians lon1),
    mul_comm (Real.cos (radians lat1)) (Real.cos (radians lat2))]

lemma calculate_distance_nonneg (lat1 lon1 lat2 lon2 : ℝ) :
    0 ≤ calculate_distance lat1 lon1 lat2 lon2 := by
  unfold calculate_distance
  have h := Real.arcsin_nonneg.mpr (Real.sqrt_nonneg
    (Real.sin ((radians lat2 - radians lat1) / 2) ^ 2 +
      Real.cos (radians lat1) * Real.cos (radians lat2) *
        Real.sin ((radians lon2 - radians lon1) / 2) ^ 2))
  linarith

lemma scanStep_inv (points : List Point) (visited : List Bool) (current : ℕ)
    (scanned : List ℕ) (acc : Option (ℕ × ℝ)) (x : ℕ)
    (hx : ∀ j ∈ scanned, j < x)
    (h : ScanInv points visited current scanned acc) :
    ScanInv points visited current (scanned ++ [x])
      (scanStep points visited current acc x) := by
  unfold scanStep
  by_cases hv : visited.getD x true = true
  · simp only [hv, if_true]
    match acc with
    | none =>
        intro j hj
        rcases List.mem_append.mp hj with hj | hj
        · exact h j hj
        · simp only [List.mem_singleton] at hj; subst hj; exact hv
    | some (i, m) =>
        obtain ⟨hi1, hi2, hi3, hi4⟩ := h
        refine ⟨List.mem_append.mpr (Or.inl hi1), hi2, hi3, ?_⟩
        intro j hj hjv
        rcases List.mem_append.mp hj with hj | hj
        · exact hi4 j hj hjv
        · simp only [List.mem_singleton] at hj; subst hj
          rw [hv] at hjv; exact absurd hjv (by simp)
  · rw [Bool.not_eq_true] at hv
    simp only [hv, Bool.false_eq_true, if_false]
    match acc with
    | none =>
        refine ⟨List.mem_append.mpr (Or.inr (by simp)), hv, rfl, ?_⟩
        intro j hj hjv
        rcases List.mem_append.mp hj with hj | hj
        · rw [h j hj] at hjv; exact absurd hjv (by simp)
        · simp only [List.mem_singleton] at hj; subst hj
          exact ⟨le_refl _, fun _ => le_refl _⟩
    | some (i, m) =>
        obtain ⟨hi1, hi2, hi3, hi4⟩ := h
        by_cases hlt : pdist points current x < m
        · simp only [hlt, if_true]
          refine ⟨List.mem_append.mpr (Or.inr (by simp)), hv, rfl, ?_⟩
          intro j hj hjv
          rcases List.mem_append.mp hj with hj | hj
          · have := (hi4 j hj hjv).1
            constructor
            · linarith
            · intro hle; linarith
          · simp only [List.mem_singleton] at hj; subst hj
            exact ⟨le_refl _, fun _ => le_refl _⟩
        · simp only [hlt, if_false]
          push_neg at hlt
          refine ⟨List.mem_append.mpr (Or.inl hi1), hi2, hi3, ?_⟩
          intro j hj hjv
          rcases List.mem_append.mp hj with hj | hj
          · exact hi4 j hj hjv
          · simp only [List.mem_singleton] at hj; subst hj
            exact ⟨hlt, fun _ => le_of_lt (hx i hi1)⟩

lemma scan_foldl_inv (points : List Point) (visited : List Bool) (current : ℕ) :
    ∀ (L scanned : List ℕ) (acc : Option (ℕ × ℝ)),
      List.Pairwise (· < ·) (scanned ++ L) →
      ScanInv points visited current scanned acc →
      ScanInv points visited current (scanned ++ L)
        (L.foldl (scanStep points visited current) acc) := by
  intro L
  induction L with
  | nil => intro scanned acc _ h; simpa using h
  | cons x L ih =>
    intro scanned acc hp h
    have hx : ∀ j ∈ scanned, j < x := by
      intro j hj
      exact (List.pairwise_append.mp hp).2.2 j hj x (by simp)
    have hstep := scanStep_inv points visited current scanned acc x hx h
    have hp' : List.Pairwise (· < ·) ((scanned ++ [x]) ++ L) := by
      simpa [List.append_assoc] using hp
    have := ih (scanned ++ [x]) (scanStep points visited current acc x) hp' hstep
    simpa [List.append_assoc] using this

lemma selectNearest_none (points : List Point) (visited : List Bool) (current : ℕ)
    (h : selectNearest points visited current = none) :
    ∀ j < points.length, visited.getD j true = true := by
  have hinv := scan_foldl_inv points visited current (List.range points.length) [] none
    (by simpa using List.pairwise_lt_range points.length) (by intro j hj; simp at hj)
  rw [show ([] : List ℕ) ++ List.range points.length = List.range points.length by simp] at hinv
  unfold selectNearest at h
  rw [h] at hinv
  intro j hj
  exact hinv j (List.mem_range.mpr hj)

lemma selectNearest_some (points : List Point) (visited : List Bool) (current : ℕ)
    (i : ℕ) (m : ℝ)
    (h : selectNearest points visited current = some (i, m)) :
    i < points.length ∧ visited.getD i true = false ∧ m = pdist points current i ∧
      ∀ j < points.length, visited.getD j true = false →
        m ≤ pdist points current j ∧ (pdist points current j ≤ m → i ≤ j) := by
  have hinv := scan_foldl_inv points visited current (List.range points.length) [] none
    (by simpa using List.pairwise_lt_range points.length) (by intro j hj; simp at hj)
  rw [show ([] : List ℕ) ++ List.range points.length = List.range points.length by simp] at hinv
  unfold selectNearest at h
  rw [h] at hinv
  obtain ⟨h1, h2, h3, h4⟩ := hinv
  exact ⟨List.mem_range.mp h1, h2, h3, fun j hj hjv => h4 j (List.mem_range.mpr hj) hjv⟩

lemma legSum_concat (points : List Point) :
    ∀ (path : List ℕ) (c j : ℕ), path.getLast? = some c →
      legSum points (path ++ [j]) = legSum points path + pdist points c j := by
  intro path
  induction path with
  | nil => intro c j h; simp at h
  | cons a rest ih =>
    intro c j h
    cases rest with
    | nil =>
        simp only [List.getLast?_singleton, Option.some.injEq] at h
        subst h
        simp [legSum]
    | cons b rest' =>
        have h' : (b :: rest').getLast? = some c := by
          rwa [List.getLast?_cons_cons] at h
        have : ((a :: b :: rest') ++ [j]) = a :: ((b :: rest') ++ [j]) := by simp
        rw [this]
        show pdist points a b + legSum points ((b :: rest') ++ [j]) =
          (pdist points a b + legSum points (b :: rest')) + pdist points c j
        rw [ih c j h']
        ring

lemma greedyOrder_concat (points : List Point) (path : List ℕ) (current j : ℕ)
    (hgo : GreedyOrder points path) (hlast : path.getLast? = some current)
    (hjlt : j < points.length) (hjnotin : j ∉ path)
    (hmin : ∀ j' < points.length, j' ∉ path →
      pdist points current j ≤ pdist points current j' ∧
        (pdist points current j' ≤ pdist points current j → j ≤ j')) :
    GreedyOrder points (path ++ [j]) := by
  intro k hk
  simp only [List.length_append, List.length_singleton] at hk
  rcases Nat.lt_or_ge (k + 1) path.length with hcase | hcase
  · have hk' : k < path.length := Nat.lt_of_succ_lt hcase
    rw [List.getD_append path [j] 0 k hk', List.getD_append path [j] 0 (k + 1) hcase,
      List.take_append_of_le_length (Nat.le_of_lt hcase)]
    exact hgo k hcase
  · have hkeq : k + 1 = path.length := by omega
    have hpathne : path ≠ [] := by
      intro hnil; rw [hnil] at hlast; simp at hlast
    have hgetk : (path ++ [j]).getD k 0 = current := by
      rw [List.getD_append path [j] 0 k (by omega)]
      rw [List.getD_eq_getElem?_getD]
      rw [List.getLast?_eq_getElem?] at hlast
      rw [show k = path.length - 1 by omega, hlast]
      rfl
    have hgetk1 : (path ++ [j]).getD (k + 1) 0 = j := by
      rw [List.getD_eq_getElem?_getD, hkeq, List.getElem?_concat_length]
      rfl
    have htake : (path ++ [j]).take (k + 1) = path := by
      rw [List.take_append_of_le_length (by omega), hkeq, List.take_length]
    rw [hgetk, hgetk1, htake]
    exact ⟨hjlt, hjnotin, hmin⟩

lemma nnLoop_inv (points : List Point) :
    ∀ (fuel : ℕ) (visited : List Bool) (current : ℕ) (path : List ℕ) (total : ℝ),
      visited.length = points.length →
      path.getLast? = some current →
      (∀ j ∈ path, j < points.length) →
      (∀ j < points.length, (visited.getD j true = true ↔ j ∈ path)) →
      path.Nodup →
      total = legSum points path →
      GreedyOrder points path →
      path.length + fuel = points.length →
      (nnLoop points fuel visited current path total).1.length = points.length ∧
      (nnLoop points fuel visited current path total).1.Nodup ∧
      (∀ j ∈ (nnLoop points fuel visited current path total).1, j < points.length) ∧
      (nnLoop points fuel visited current path total).2 =
        legSum points (nnLoop points fuel visited current path total).1 ∧
      GreedyOrder points (nnLoop points fuel visited current path total).1 ∧
      (nnLoop points fuel visited current path total).1.head? = path.head? := by
  intro fuel
  induction fuel with
  | zero =>
    intro visited current path total h1 h2 h3 h4 h5 h6 h7 h8
    exact ⟨by simpa [nnLoop] using h8, by simpa [nnLoop] using h5,
      by simpa [nnLoop] using h3, by simpa [nnLoop] using h6,
      by simpa [nnLoop] using h7, by simp [nnLoop]⟩
  | succ fuel ih =>
    intro visited current path total h1 h2 h3 h4 h5 h6 h7 h8
    have hpathne : path ≠ [] := fun hnil => by rw [hnil] at h2; simp at h2
    cases hsel : selectNearest points visited current with
    | none =>
        exfalso
        have hall := selectNearest_none points visited current hsel
        have hsub : List.range points.length ⊆ path := by
          intro j hj
          exact (h4 j (List.mem_range.mp hj)).mp (hall j (List.mem_range.mp hj))
        have hle := ((List.nodup_range points.length).subperm hsub).length_le
        simp only [List.length_range] at hle
        omega
    | some jm =>
        obtain ⟨j, m⟩ := jm
        obtain ⟨hj_lt, hj_unvis, hm_eq, hj_min⟩ :=
          selectNearest_some points visited current j m hsel
        have hj_notin : j ∉ path := by
          intro hmem
          have := (h4 j hj_lt).mpr hmem
          rw [hj_unvis] at this
          exact absurd this (by simp)
        have hstep : nnLoop points (fuel + 1) visited current path total =
            nnLoop points fuel (visited.set j true) j (path ++ [j]) (total + m) := by
          simp [nnLoop, hsel]
        rw [hstep]
        have H1 : (visited.set j true).length = points.length := by
          rw [List.length_set]; exact h1
        have H2 : (path ++ [j]).getLast? = some j := List.getLast?_concat path
        have H3 : ∀ x ∈ path ++ [j], x < points.length := by
          intro x hx
          rcases List.mem_append.mp hx with hx | hx
          · exact h3 x hx
          · simp only [List.mem_singleton] at hx; subst hx; exact hj_lt
        have H4 : ∀ x < points.length,
            ((visited.set j true).getD x true = true ↔ x ∈ path ++ [j]) := by
          intro x hxlt
          rw [List.getD_eq_getElem?_getD, List.getElem?_set]
          by_cases hxj : j = x
          · subst hxj
            have hjv : j < visited.length := h1 ▸ hj_lt
            simp [hjv]
          · simp only [hxj, if_false]
            rw [← List.getD_eq_getElem?_getD, h4 x hxlt]
            simp only [List.mem_append, List.mem_singleton]
            constructor
            · exact Or.inl
            · rintro (hx | hx)
              · exact hx
              · exact absurd hx.symm hxj
        have H5 : (path ++ [j]).Nodup := by
          rw [List.nodup_append]
          refine ⟨h5, by simp, ?_⟩
          intro a ha hb
          simp only [List.mem_singleton] at hb
          subst hb
          exact hj_notin ha
        have H6 : total + m = legSum points (path ++ [j]) := by
          rw [legSum_concat points path current j h2, ← h6, hm_eq]
        have H7 : GreedyOrder points (path ++ [j]) := by
          refine greedyOrder_concat points path current j h7 h2 hj_lt hj_notin ?_
          intro j' hj'lt hj'notin
          have hj'unvis : visited.getD j' true = false := by
            have := h4 j' hj'lt
            rcases Bool.eq_false_or_eq_true (visited.getD j' true) with hb | hb
            · exact absurd (this.mp hb) hj'notin
            · exact hb
          have := hj_min j' hj'lt hj'unvis
          rw [hm_eq] at this
          exact this
        have H8 : (path ++ [j]).length + fuel = points.length := by
          simp only [List.length_append, List.length_singleton]
          omega
        obtain ⟨c1, c2, c3, c4, c5, c6⟩ :=
          ih (visited.set j true) j (path ++ [j]) (total + m) H1 H2 H3 H4 H5 H6 H7 H8
        refine ⟨c1, c2, c3, c4, c5, ?_⟩
        rw [c6]
        cases path with
        | nil => exact absurd rfl hpathne
        | cons a t => simp

lemma nn_path_spec (points : List Point) :
    ((nearest_neighbor_path points 0).1).Perm (List.range points.length) ∧
      (nearest_neighbor_path points 0).2 =
        legSum points (nearest_neighbor_path points 0).1 ∧
      (nearest_neighbor_path points 0).1.head? = (List.range points.length).head? ∧
      GreedyOrder points (nearest_neighbor_path points 0).1 := by
  by_cases hemp : points = []
  · subst hemp
    refine ⟨by simp [nearest_neighbor_path], by simp [nearest_neighbor_path, legSum],
      by simp [nearest_neighbor_path], ?_⟩
    intro k hk
    simp [nearest_neighbor_path] at hk
  · have hn : 0 < points.length := List.length_pos.mpr hemp
    have hunfold : nearest_neighbor_path points 0 =
        nnLoop points (points.length - 1)
          ((List.replicate points.length false).set 0 true) 0 [0] 0 := by
      unfold nearest_neighbor_path
      rw [if_neg (by simpa [List.isEmpty_iff] using hemp)]
    have H4 : ∀ x < points.length,
        (((List.replicate points.length false).set 0 true).getD x true = true ↔
          x ∈ [0]) := by
      intro x hxlt
      rw [List.getD_eq_getElem?_getD, List.getElem?_set]
      by_cases h0 : (0 : ℕ) = x
      · subst h0
        simp [hn]
      · simp only [h0, if_false, List.getElem?_replicate, hxlt, if_true]
        simp only [Option.getD_some, List.mem_singleton]
        constructor
        · intro hb; exact absurd hb (by simp)
        · intro hx; exact absurd hx.symm h0
    obtain ⟨c1, c2, c3, c4, c5, c6⟩ :=
      nnLoop_inv points (points.length - 1)
        ((List.replicate points.length false).set 0 true) 0 [0] 0
        (by simp)
        (by simp)
        (by intro x hx; simp only [List.mem_singleton] at hx; subst hx; exact hn)
        H4
        (by simp)
        (by simp [legSum])
        (by intro k hk; simp at hk)
        (by simp; omega)
    rw [hunfold]
    refine ⟨?_, c4, ?_, c5⟩
    · refine (c2.subperm fun x hx => List.mem_range.mpr (c3 x hx)).perm_of_length_le ?_
      simp [c1]
    · rw [c6]
      obtain ⟨k, hk⟩ : ∃ k, points.length = k + 1 := ⟨points.length - 1, by omega⟩
      rw [hk]
      simp [List.range_succ_eq_map]

lemma nn_path_nil : nearest_neighbor_path ([] : List Point) 0 = ([], 0) := by
  simp [nearest_neighbor_path]

lemma nn_path_singleton (p : Point) : nearest_neighbor_path [p] 0 = ([0], 0) := by
  simp [nearest_neighbor_path, nnLoop]

end Geospatial

namespace Database

lemma bands_partition (l : List Detection) :
    l.countP (fun d => d.confidence ≥ 0.8) +
        l.countP (fun d => 0.5 ≤ d.confidence ∧ d.confidence < 0.8) +
        l.countP (fun d => d.confidence < 0.5) = l.length := by
  induction l with
  | nil => rfl
  | cons d t ih =>
    simp only [List.countP_cons, List.length_cons]
    have b1 : (if (decide (d.confidence ≥ (0.8 : ℚ))) = true then (1 : ℕ) else 0) =
        if d.confidence ≥ (0.8 : ℚ) then 1 else 0 := by
      by_cases h : d.confidence ≥ (0.8 : ℚ) <;> simp [h]
    have b2 : (if (decide ((0.5 : ℚ) ≤ d.confidence ∧ d.confidence < 0.8)) = true
          then (1 : ℕ) else 0) =
        if (0.5 : ℚ) ≤ d.confidence ∧ d.confidence < 0.8 then 1 else 0 := by
      by_cases h : (0.5 : ℚ) ≤ d.confidence ∧ d.confidence < 0.8 <;> simp [h]
    have b3 : (if (decide (d.confidence < (0.5 : ℚ))) = true then (1 : ℕ) else 0) =
        if d.confidence < (0.5 : ℚ) then 1 else 0 := by
      by_cases h : d.confidence < (0.5 : ℚ) <;> simp [h]
    rw [b1, b2, b3]
    have key : ((if d.confidence ≥ (0.8 : ℚ) then 1 else 0) +
        ((if (0.5 : ℚ) ≤ d.confidence ∧ d.confidence < 0.8 then 1 else 0) +
          (if d.confidence < (0.5 : ℚ) then 1 else 0)) : ℕ) = 1 := by
      by_cases h1 : (0.8 : ℚ) ≤ d.confidence
      · rw [if_pos h1, if_neg (fun h => absurd h1 (not_le.mpr h.2)),
          if_neg (not_lt.mpr (le_trans (by norm_num) h1))]
      · by_cases h2 : (0.5 : ℚ) ≤ d.confidence
        · rw [if_neg h1, if_pos ⟨h2, not_le.mp h1⟩, if_neg (not_lt.mpr h2)]
        · rw [if_neg h1, if_neg (fun h => absurd h.1 h2), if_pos (not_le.mp h2)]
    omega

lemma maxIdStep_some (m v : ℤ) : maxIdStep m (some v) = max m v := by
  show (if v > m then v else m) = max m v
  by_cases h : v > m
  · rw [if_pos h, max_eq_right h.le]
  · rw [if_neg h, max_eq_left (not_lt.mp h)]

lemma foldl_maxIdStep (l : List (Option ℤ)) : ∀ z : ℤ,
    l.foldl maxIdStep z = l.reduceOption.foldl max z := by
  induction l with
  | nil => intro z; rfl
  | cons o t ih =>
    intro z
    cases o with
    | none =>
        have h1 : (none :: t).reduceOption = t.reduceOption := by
          simp [List.reduceOption]
        rw [h1]
        show t.foldl maxIdStep (maxIdStep z none) = _
        rw [show maxIdStep z none = z from rfl, ih z]
    | some v =>
        have h1 : (some v :: t).reduceOption = v :: t.reduceOption := by
          simp [List.reduceOption]
        rw [h1]
        show t.foldl maxIdStep (maxIdStep z (some v)) = _
        rw [maxIdStep_some, ih (max z v)]
        rfl

lemma get_next_eq_foldl (s : Store) :
    get_next_detection_id s = (allIds s).foldl max 0 + 1 := by
  unfold get_next_detection_id allIds
  rw [foldl_maxIdStep, foldl_maxIdStep, List.reduceOption_append, List.foldl_append]

lemma le_foldl_max (l : List ℤ) : ∀ z : ℤ,
    z ≤ l.foldl max z ∧ ∀ i ∈ l, i ≤ l.foldl max z := by
  induction l with
  | nil => intro z; exact ⟨le_refl z, by simp⟩
  | cons a t ih =>
    intro z
    refine ⟨le_trans (le_max_left z a) (ih (max z a)).1, ?_⟩
    intro i hi
    rcases List.mem_cons.mp hi with rfl | hi
    · exact le_trans (le_max_right z i) (ih (max z i)).1
    · exact (ih (max z a)).2 i hi

lemma parse_rowOfDetection (d : Detection) :
    parseDetection (rowOfDetection d) = some d := rfl

lemma parse_repairRowOfDetection (d : Detection) (rd tech notes : String) :
    parseRepair (repairRowOfDetection d rd tech notes) =
      some ⟨d.id, d.timestamp, d.image_path, d.lat, d.lng, d.type, d.confidence,
        rd, tech, notes⟩ := rfl

lemma rowOfDetection_parse {r : Row} {d : Detection}
    (h : parseDetection r = some d) : rowOfDetection d = r := by
  obtain ⟨i, ts, ip, la, ln, ty, c⟩ := r
  unfold parseDetection at h
  cases i with
  | none => exact Option.noConfusion h
  | some iv =>
  cases la with
  | none => exact Option.noConfusion h
  | some lav =>
  cases ln with
  | none => exact Option.noConfusion h
  | some lnv =>
  cases c with
  | none => exact Option.noConfusion h
  | some cv =>
  injection h with h
  subst h
  rfl

lemma filterMap_map_rowOf (l : List Detection) :
    (l.map rowOfDetection).filterMap parseDetection = l := by
  rw [List.filterMap_map]
  have h : parseDetection ∘ rowOfDetection = some := funext fun d => rfl
  rw [h]
  simp

lemma find_of_mem_ids (s : Store) (k : ℤ)
    (hk : k ∈ (get_all_detections s).map Detection.id) :
    ∃ d, (get_all_detections s).find? (fun x => x.id == k) = some d ∧ d.id = k := by
  obtain ⟨d0, hd0, hid⟩ := List.mem_map.mp hk
  have hsome : ((get_all_detections s).find? (fun x => x.id == k)).isSome :=
    List.find?_isSome.mpr ⟨d0, hd0, by simp [hid]⟩
  obtain ⟨d, hd⟩ := Option.isSome_iff_exists.mp hsome
  exact ⟨d, hd, by simpa using List.find?_some hd⟩

lemma move_to_repairs_found (s : Store) (k : ℤ)
    (technician notes repair_date : String) (d : Detection)
    (hfind : (get_all_detections s).find? (fun x => x.id == k) = some d) :
    move_to_repairs s k technician notes repair_date =
      (⟨((get_all_detections s).filter (fun x => x.id != k)).map rowOfDetection,
        s.repairs ++ [repairRowOfDetection d repair_date technician notes]⟩,
        true,
        asciiTitle d.type ++ " #" ++ toString k ++ " has been fixed!") := by
  simp only [move_to_repairs, hfind]

lemma filter_filterMap_rowOf (rows : List Row) (k : ℤ) :
    ((rows.filterMap parseDetection).filter (fun d => d.id != k)).map rowOfDetection =
      rows.filter (fun r =>
        match parseDetection r with
        | some d => d.id != k
        | none => false) := by
  induction rows with
  | nil => rfl
  | cons r t ih =>
    rw [List.filterMap_cons, List.filter_cons]
    cases hp : parseDetection r with
    | none =>
        simp only [hp]
        exact ih
    | some d =>
        simp only [hp]
        rw [List.filter_cons]
        by_cases hid : (d.id != k) = true
        · simp only [hid, if_true, List.map_cons, rowOfDetection_parse hp, ih]
        · simp only [Bool.not_eq_true] at hid
          simp only [hid, Bool.false_eq_true, if_false, ih]

end Database

namespace App

lemma persistTimes_head_gap :
    ∀ (ts : List ℚ) (last t : ℚ), (persistTimes last ts).head? = some t →
      CAPTURE_COOLDOWN < t - last := by
  intro ts
  induction ts with
  | nil => intro last t h; simp [persistTimes] at h
  | cons x rest ih =>
    intro last t h
    by_cases hx : x - last > CAPTURE_COOLDOWN
    · rw [persistTimes, if_pos hx] at h
      simp only [List.head?_cons, Option.some.injEq] at h
      subst h
      exact hx
    · rw [persistTimes, if_neg hx] at h
      exact ih last t h

lemma persistTimes_chain (ts : List ℚ) :
    ∀ last : ℚ, (persistTimes last ts).Chain' (fun a b => CAPTURE_COOLDOWN < b - a) := by
  induction ts with
  | nil => intro last; simp [persistTimes]
  | cons x rest ih =>
    intro last
    by_cases hx : x - last > CAPTURE_COOLDOWN
    · rw [persistTimes, if_pos hx]
      refine List.chain'_cons'.mpr ⟨?_, ih x⟩
      intro y hy
      exact persistTimes_head_gap rest x y hy
    · rw [persistTimes, if_neg hx]
      exact ih last

lemma runStream_eq_map : ∀ (m fc : ℕ),
    runStream fc m = (List.range m).map (fun i => (fc + i + 1) % skip_frames == 0) := by
  intro m
  induction m with
  | zero => intro fc; rfl
  | succ m ih =>
    intro fc
    show ((fc + 1) % skip_frames == 0) :: runStream (fc + 1) m = _
    rw [List.range_succ_eq_map, List.map_cons, List.map_map, ih (fc + 1)]
    refine congrArg₂ _ (by norm_num) ?_
    apply List.map_congr_left
    intro i _
    simp only [Function.comp_apply]
    congr 2
    omega

end App

/-- Claim C1: for every list of located points and start index 0, the
route planner returns a visit order that is a permutation of all input
indices, starting at index 0, built greedily (each step moves to an
unvisited index of minimum distance, ties broken to the lowest index),
with total distance equal to the sum of the consecutive leg distances;
the empty input yields `([], 0)` and a single point yields `([0], 0)`. -/
theorem nearest_neighbor_path_correct :
    Geospatial.nearest_neighbor_path ([] : List Geospatial.Point) 0 = ([], 0) ∧
    (∀ p : Geospatial.Point, Geospatial.nearest_neighbor_path [p] 0 = ([0], 0)) ∧
    ∀ points : List Geospatial.Point,
      ((Geospatial.nearest_neighbor_path points 0).1).Perm
          (List.range points.length) ∧
        (Geospatial.nearest_neighbor_path points 0).2 =
          Geospatial.legSum points (Geospatial.nearest_neighbor_path points 0).1 ∧
        (Geospatial.nearest_neighbor_path points 0).1.head? =
          (List.range points.length).head? ∧
        Geospatial.GreedyOrder points (Geospatial.nearest_neighbor_path points 0).1 :=
  ⟨Geospatial.nn_path_nil, Geospatial.nn_path_singleton, Geospatial.nn_path_spec⟩

/-- Claim C2 counterexample: with a single parseable stored id, −5, the
code returns 1 (the running maximum starts at 0), not max-id + 1 = −4. -/
theorem get_next_detection_id_counterexample :
    Database.allIds Database.negIdStore = [-5] ∧
    Database.get_next_detection_id Database.negIdStore = 1 ∧
    Database.get_next_detection_id Database.negIdStore ≠ -5 + 1 :=
  ⟨rfl, rfl, by decide⟩

/-- Claim C2 (amended): `get_next_detection_id` returns one more than
the maximum of 0 and all parseable ids across both collections — hence
max-id + 1 whenever a nonnegative id is present, 1 when both
collections are empty — and it strictly exceeds every id present; with
max id 7 in the active file and 10 in the archive the next id is 11. -/
theorem get_next_detection_id_correct :
    (∀ s : Database.Store,
      Database.get_next_detection_id s = (Database.allIds s).foldl max 0 + 1 ∧
      ∀ i ∈ Database.allIds s, i < Database.get_next_detection_id s) ∧
    Database.get_next_detection_id Database.emptyStore = 1 ∧
    Database.get_next_detection_id Database.scenarioStore = 11 ∧
    (Database.add_detection Database.scenarioStore "c.jpg" 0 0 "pothole" 1
        "2024-01-05 00:00:00").2 = 11 := by
  refine ⟨fun s => ⟨Database.get_next_eq_foldl s, ?_⟩, rfl, rfl, rfl⟩
  intro i hi
  rw [Database.get_next_eq_foldl s]
  have h := (Database.le_foldl_max (Database.allIds s) 0).2 i hi
  omega

/-- Claim C4: promoting an id that is absent from the (parsed) active
set reports "Detection not found" and leaves the store unchanged. -/
theorem move_to_repairs_not_found (s : Database.Store) (k : ℤ)
    (technician notes repair_date : String)
    (h : ∀ d ∈ Database.get_all_detections s, d.id ≠ k) :
    Database.move_to_repairs s k technician notes repair_date =
      (s, false, "Detection not found") := by
  have hnone : (Database.get_all_detections s).find? (fun d => d.id == k) = none :=
    List.find?_eq_none.mpr fun d hd => by simp [h d hd]
  simp only [Database.move_to_repairs, hnone]

/-- Claim C4 witness: in a concrete store whose row with id 2 fails to
parse, promoting id 2 is a no-op reporting "Detection not found". -/
theorem move_to_repairs_not_found_witness :
    (∀ d ∈ Database.get_all_detections Database.mixedStore, d.id ≠ 2) ∧
    Database.move_to_repairs Database.mixedStore 2 "t" "n" "2024-02-02" =
      (Database.mixedStore, false, "Detection not found") :=
  ⟨by decide,
    move_to_repairs_not_found Database.mixedStore 2 "t" "n" "2024-02-02" (by decide)⟩

/-- Claim C3: if id `k` is present in the parsed active set (and, per
the store invariant, absent from the archive), a promote succeeds: `k`
disappears from the active listing, the first active record with id `k`
appears exactly once in the archive listing with its original fields
plus the repair metadata, and the returned message embeds the record's
title-cased category and the id. -/
theorem move_to_repairs_success (s : Database.Store) (k : ℤ)
    (technician notes repair_date : String)
    (hk : k ∈ (Database.get_all_detections s).map Database.Detection.id)
    (hnk : k ∉ (Database.get_all_repairs s).map Database.Repair.id) :
    (Database.move_to_repairs s k technician notes repair_date).2.1 = true ∧
    (∀ d ∈ Database.get_all_detections
        (Database.move_to_repairs s k technician notes repair_date).1, d.id ≠ k) ∧
    ∃ d, (Database.get_all_detections s).find? (fun x => x.id == k) = some d ∧
      (Database.get_all_repairs
          (Database.move_to_repairs s k technician notes repair_date).1).filter
          (fun r => r.id == k) =
        [⟨k, d.timestamp, d.image_path, d.lat, d.lng, d.type, d.confidence,
          repair_date, technician, notes⟩] ∧
      (Database.move_to_repairs s k technician notes repair_date).2.2 =
        Database.asciiTitle d.type ++ " #" ++ toString k ++ " has been fixed!" := by
  obtain ⟨d, hfind, hid⟩ := Database.find_of_mem_ids s k hk
  rw [Database.move_to_repairs_found s k technician notes repair_date d hfind]
  refine ⟨rfl, ?_, d, hfind, ?_, rfl⟩
  · intro d' hd'
    simp only [Database.get_all_detections, Database.filterMap_map_rowOf] at hd'
    have := (List.mem_filter.mp hd').2
    simpa using this
  · simp only [Database.get_all_repairs, List.filterMap_append,
      List.filter_append]
    have hold : (Database.get_all_repairs s).filter (fun r => r.id == k) = [] := by
      rw [List.filter_eq_nil_iff]
      intro r hr
      simp only [beq_iff_eq]
      intro hrk
      exact hnk (List.mem_map.mpr ⟨r, hr, hrk⟩)
    rw [show (s.repairs.filterMap Database.parseRepair) = Database.get_all_repairs s
      from rfl, hold]
    subst hid
    simp [Database.parse_repairRowOfDetection]

/-- Claim C3 witness: promoting id 1 in a concrete store behaves as the
success theorem states. -/
theorem move_to_repairs_success_witness :
    (1 ∈ (Database.get_all_detections Database.mixedStore).map Database.Detection.id) ∧
    (1 ∉ (Database.get_all_repairs Database.mixedStore).map Database.Repair.id) ∧
    ((Database.move_to_repairs Database.mixedStore 1 "tech" "done" "2024-02-02").2.1
        = true ∧
      (∀ d ∈ Database.get_all_detections
          (Database.move_to_repairs Database.mixedStore 1 "tech" "done"
            "2024-02-02").1, d.id ≠ 1) ∧
      ∃ d, (Database.get_all_detections Database.mixedStore).find?
            (fun x => x.id == 1) = some d ∧
        (Database.get_all_repairs
            (Database.move_to_repairs Database.mixedStore 1 "tech" "done"
              "2024-02-02").1).filter (fun r => r.id == 1) =
          [⟨1, d.timestamp, d.image_path, d.lat, d.lng, d.type, d.confidence,
            "2024-02-02", "tech", "done"⟩] ∧
        (Database.move_to_repairs Database.mixedStore 1 "tech" "done"
            "2024-02-02").2.2 =
          Database.asciiTitle d.type ++ " #" ++ toString (1 : ℤ) ++
            " has been fixed!") :=
  ⟨by decide, by decide,
    move_to_repairs_success Database.mixedStore 1 "tech" "done" "2024-02-02"
      (by decide) (by decide)⟩

/-- Claim C10: a successful promote rewrites the active file from the
parsed view: exactly the parseable rows with id ≠ k are retained, so a
row that failed to parse is deleted by the rewrite, not merely skipped
for the read. -/
theorem move_to_repairs_drops_unparseable (s : Database.Store) (k : ℤ)
    (technician notes repair_date : String)
    (hk : k ∈ (Database.get_all_detections s).map Database.Detection.id) :
    (Database.move_to_repairs s k technician notes repair_date).1.detections =
      s.detections.filter (fun r =>
        match Database.parseDetection r with
        | some d => d.id != k
        | none => false) ∧
    ∀ row ∈ s.detections, Database.parseDetection row = none →
      row ∉ (Database.move_to_repairs s k technician notes repair_date).1.detections := by
  obtain ⟨d, hfind, _⟩ := Database.find_of_mem_ids s k hk
  rw [Database.move_to_repairs_found s k technician notes repair_date d hfind]
  have heq : ((Database.get_all_detections s).filter
        (fun x => x.id != k)).map Database.rowOfDetection =
      s.detections.filter (fun r =>
        match Database.parseDetection r with
        | some d => d.id != k
        | none => false) := Database.filter_filterMap_rowOf s.detections k
  refine ⟨heq, ?_⟩
  intro row hrow hnone hmem
  rw [heq] at hmem
  have := (List.mem_filter.mp hmem).2
  rw [hnone] at this
  exact absurd this (by simp)

/-- Claim C10 witness: promoting id 1 in a store with an unparseable
row deletes that row from the active file. -/
theorem move_to_repairs_drops_unparseable_witness :
    (1 ∈ (Database.get_all_detections Database.mixedStore).map Database.Detection.id) ∧
    ((Database.move_to_repairs Database.mixedStore 1 "t" "n" "2024-02-02").1.detections =
        Database.mixedStore.detections.filter (fun r =>
          match Database.parseDetection r with
          | some d => d.id != 1
          | none => false) ∧
      ∀ row ∈ Database.mixedStore.detections, Database.parseDetection row = none →
        row ∉ (Database.move_to_repairs Database.mixedStore 1 "t" "n"
          "2024-02-02").1.detections) :=
  ⟨by decide,
    move_to_repairs_drops_unparseable Database.mixedStore 1 "t" "n" "2024-02-02"
      (by decide)⟩

/-- Claim C7 counterexample: a stored detection with confidence 0.6 —
which is below 0.8 — is counted in the medium band and not in the low
band, so the low band is not "confidence < 0.8". -/
theorem low_band_counterexample :
    (Database.get_all_detections Database.bandStore).map
        Database.Detection.confidence = [6 / 10] ∧
    (6 / 10 : ℚ) < 0.8 ∧
    (Database.get_detection_stats Database.bandStore).low_severity = 0 ∧
    (Database.get_detection_stats Database.bandStore).medium_severity = 1 :=
  ⟨rfl, by norm_num,
    by norm_num [Database.get_detection_stats, Database.get_all_detections,
      Database.bandStore, Database.parseDetection, List.countP, List.countP.go],
    by norm_num [Database.get_detection_stats, Database.get_all_detections,
      Database.bandStore, Database.parseDetection, List.countP, List.countP.go]⟩

/-- Claim C7 (amended): the statistics are a pure function of the store;
a detection is counted high when its confidence is ≥ 0.8, medium when it
is in [0.5, 0.8), and low when it is < 0.5, and the three bands
partition the active detections. -/
theorem severity_bands_correct :
    ∀ s : Database.Store,
      (Database.get_detection_stats s).high_severity =
        (Database.get_all_detections s).countP (fun d => d.confidence ≥ 0.8) ∧
      (Database.get_detection_stats s).medium_severity =
        (Database.get_all_detections s).countP
          (fun d => 0.5 ≤ d.confidence ∧ d.confidence < 0.8) ∧
      (Database.get_detection_stats s).low_severity =
        (Database.get_all_detections s).countP (fun d => d.confidence < 0.5) ∧
      (Database.get_detection_stats s).high_severity +
          (Database.get_detection_stats s).medium_severity +
          (Database.get_detection_stats s).low_severity =
        (Database.get_detection_stats s).total_detections :=
  fun s => ⟨rfl, rfl, rfl, Database.bands_partition (Database.get_all_detections s)⟩

/-- Claim C5: the cooldown gate persists a qualifying detection iff
`now - lastCaptureTime > CAPTURE_COOLDOWN` (5 s), updating
`lastCaptureTime` on persist; two qualifying detections 2 s apart yield
one persisted capture, 6 s apart yield two, and any two consecutive
persisted captures are more than one cooldown window apart. -/
theorem cooldown_gate_correct :
    App.CAPTURE_COOLDOWN = 5 ∧
    (∀ (last t : ℚ) (rest : List ℚ),
      App.persistTimes last (t :: rest) =
        if t - last > App.CAPTURE_COOLDOWN then t :: App.persistTimes t rest
        else App.persistTimes last rest) ∧
    App.persistTimes 0 [100, 102] = [100] ∧
    App.persistTimes 0 [100, 106] = [100, 106] ∧
    ∀ (last : ℚ) (ts : List ℚ),
      (App.persistTimes last ts).Chain' (fun a b => App.CAPTURE_COOLDOWN < b - a) :=
  ⟨rfl, fun _ _ _ => rfl,
    by norm_num [App.persistTimes, App.CAPTURE_COOLDOWN],
    by norm_num [App.persistTimes, App.CAPTURE_COOLDOWN],
    fun last ts => App.persistTimes_chain ts last⟩

/-- Claim C6 counterexample: the stream's skip interval is 2, not 3 —
on frame 2 the code runs inference although `2 mod 3 ≠ 0`. -/
theorem skip_interval_counterexample :
    App.skip_frames = 2 ∧ App.skip_frames ≠ 3 ∧
    App.runStream 0 2 = [false, true] ∧ ¬((2 : ℕ) % 3 = 0) := by
  decide

/-- Claim C6 (amended): the frame counter increments on every frame and
inference runs exactly on the frames whose counter value is divisible
by `skip_frames = 2`, i.e. on every 2nd frame. -/
theorem frame_skip_correct :
    App.skip_frames = 2 ∧
    (∀ fc m : ℕ, App.runStream fc m =
      (List.range m).map (fun i => (fc + i + 1) % App.skip_frames == 0)) ∧
    ∀ m : ℕ, App.runStream 0 m =
      (List.range m).map (fun i => (i + 1) % 2 == 0) := by
  refine ⟨rfl, fun fc m => App.runStream_eq_map m fc, fun m => ?_⟩
  rw [App.runStream_eq_map m 0]
  apply List.map_congr_left
  intro i _
  norm_num [App.skip_frames]

/-- Claim C8 counterexample: persisting a capture while the latest
location is entirely unknown stores the coordinates `(0, 0)` in the
record (only the notification event says "Unknown"), so the stored
location fields are not marked unknown. -/
theorem unknown_location_stored_zero :
    ((App.capture_step Database.emptyStore ⟨none, none⟩ "f.jpg" "20240101_000000"
        "pothole" (9 / 10)).1.detections.map (fun r => (r.lat, r.lng))) =
      [(some 0, some 0)] ∧
    (App.capture_step Database.emptyStore ⟨none, none⟩ "f.jpg" "20240101_000000"
        "pothole" (9 / 10)).2.location = none :=
  ⟨rfl, rfl⟩

/-- Claim C8 (amended): when the latest location is unknown, the
notification event's location field is `none` (rendered "Unknown"),
while the stored record's coordinates are defaulted to `(0, 0)`. -/
theorem unknown_location_behavior :
    ∀ (s : Database.Store) (filepath timestamp class_name : String) (conf : ℚ),
      (App.capture_step s ⟨none, none⟩ filepath timestamp class_name conf).2.location
          = none ∧
      ((App.capture_step s ⟨none, none⟩ filepath timestamp class_name
            conf).1.detections.getLast?).map (fun r => (r.lat, r.lng)) =
        some (some 0, some 0) := by
  intro s filepath timestamp class_name conf
  refine ⟨rfl, ?_⟩
  simp only [App.capture_step, Database.add_detection]
  rw [List.getLast?_concat]
  rfl

/-- Claim C9: `calculate_distance` vanishes on equal points, is symmetric, and
is non-negative; it is by definition the Haversine formula with Earth
radius 6371 km applied after converting degrees to radians. -/
theorem claim_distance_properties :
    (∀ lat lon : ℝ, Geospatial.calculate_distance lat lon lat lon = 0) ∧
    (∀ lat1 lon1 lat2 lon2 : ℝ,
      Geospatial.calculate_distance lat1 lon1 lat2 lon2 =
        Geospatial.calculate_distance lat2 lon2 lat1 lon1) ∧
    (∀ lat1 lon1 lat2 lon2 : ℝ,
      0 ≤ Geospatial.calculate_distance lat1 lon1 lat2 lon2) :=
  ⟨Geospatial.calculate_distance_self, Geospatial.calculate_distance_comm,
    Geospatial.calculate_distance_nonneg⟩
